import Mathlib

/-!
Verification of the passkey repository (package `passkey`, file `passkey.go`):
a rolling HMAC-SHA1 time-based authentication code generator with a
three-slot validation window and a base32 transport encoding.

Bytes are modelled as `Nat` values below 256, byte strings as `List Nat`.
Machine integers are modelled as `Nat`/`Int` with explicit reductions
modulo `2 ^ 64` (for Go `uint64` conversions) and modulo `2 ^ 32`
(inside SHA-1).  Instants are mathematical integers counting nanoseconds
since the Go zero time (January 1, year 1 UTC), which is the reference
point of Go `time.Time.Round`; `time.Duration` values are integer
nanosecond counts.
-/

set_option maxRecDepth 100000

namespace Passkey

/-! ## Word and byte primitives -/

/-- Reduction modulo `2 ^ 32`: the semantics of Go `uint32` arithmetic. -/
def w32 (n : Nat) : Nat := n % 4294967296

/-- Reduction modulo `2 ^ 8`: the semantics of Go `byte` arithmetic. -/
def w8 (n : Nat) : Nat := n % 256

/-- Left rotation of a 32-bit word by `k` bits. -/
def rotl (k n : Nat) : Nat := w32 (n <<< k) ||| (n >>> (32 - k))

/-- The 8 little-endian bytes of a `uint64`, as written by Go
`binary.LittleEndian.PutUint64`. -/
def le64Bytes (n : Nat) : List Nat :=
  [n % 256, n / 2 ^ 8 % 256, n / 2 ^ 16 % 256, n / 2 ^ 24 % 256,
   n / 2 ^ 32 % 256, n / 2 ^ 40 % 256, n / 2 ^ 48 % 256, n / 2 ^ 56 % 256]

/-- The `uint64` read from the first 8 bytes of a byte string by Go
`binary.LittleEndian.Uint64`. -/
def leUint64 (b : List Nat) : Nat :=
  b.getD 0 0 + b.getD 1 0 * 2 ^ 8 + b.getD 2 0 * 2 ^ 16 + b.getD 3 0 * 2 ^ 24 +
  b.getD 4 0 * 2 ^ 32 + b.getD 5 0 * 2 ^ 40 + b.getD 6 0 * 2 ^ 48 + b.getD 7 0 * 2 ^ 56

/-- The 8 big-endian bytes of a 64-bit length field (SHA-1 padding). -/
def be64Bytes (n : Nat) : List Nat :=
  [n / 2 ^ 56 % 256, n / 2 ^ 48 % 256, n / 2 ^ 40 % 256, n / 2 ^ 32 % 256,
   n / 2 ^ 24 % 256, n / 2 ^ 16 % 256, n / 2 ^ 8 % 256, n % 256]

/-- The 4 big-endian bytes of a 32-bit word (SHA-1 output serialization). -/
def be32Bytes (n : Nat) : List Nat :=
  [n / 2 ^ 24 % 256, n / 2 ^ 16 % 256, n / 2 ^ 8 % 256, n % 256]

/-! ## SHA-1 (FIPS 180, as implemented by Go crypto/sha1) -/

/-- The five-word SHA-1 chaining state. -/
structure Sha1State where
  a : Nat
  b : Nat
  c : Nat
  d : Nat
  e : Nat

/-- The SHA-1 initial chaining value. -/
def sha1Init : Sha1State :=
  ⟨0x67452301, 0xEFCDAB89, 0x98BADCFE, 0x10325476, 0xC3D2E1F0⟩

/-- Merkle–Damgård padding: append `0x80`, zeros to 56 mod 64, then the
bit length as a big-endian 64-bit integer. -/
def sha1Pad (msg : List Nat) : List Nat :=
  msg ++ 0x80 :: List.replicate ((64 - (msg.length + 9) % 64) % 64) 0 ++
    be64Bytes (8 * msg.length)

/-- Group a byte string into big-endian 32-bit words. -/
def beWords : List Nat → List Nat
  | b0 :: b1 :: b2 :: b3 :: rest =>
      (b0 * 2 ^ 24 + b1 * 2 ^ 16 + b2 * 2 ^ 8 + b3) :: beWords rest
  | _ => []

/-- Message-schedule extension: the accumulator holds the schedule so far
in reverse; each step prepends `rotl 1 (w[i-3] xor w[i-8] xor w[i-14] xor w[i-16])`. -/
def sched : Nat → List Nat → List Nat
  | 0, acc => acc.reverse
  | n + 1, acc =>
    match acc with
    | x1 :: x2 :: x3 :: x4 :: x5 :: x6 :: x7 :: x8 :: x9 :: x10 :: x11 :: x12 ::
      x13 :: x14 :: x15 :: x16 :: rest =>
        sched n (rotl 1 (x3 ^^^ x8 ^^^ x14 ^^^ x16) ::
          x1 :: x2 :: x3 :: x4 :: x5 :: x6 :: x7 :: x8 :: x9 :: x10 :: x11 :: x12 ::
          x13 :: x14 :: x15 :: x16 :: rest)
    | other => other.reverse

/-- Round function and constant for round `i`. -/
def fk (i b c d : Nat) : Nat × Nat :=
  if i < 20 then ((b &&& c) ||| ((b ^^^ 0xFFFFFFFF) &&& d), 0x5A827999)
  else if i < 40 then (b ^^^ c ^^^ d, 0x6ED9EBA1)
  else if i < 60 then ((b &&& c) ||| (b &&& d) ||| (c &&& d), 0x8F1BBCDC)
  else (b ^^^ c ^^^ d, 0xCA62C1D6)

/-- One SHA-1 round with schedule word `w`. -/
def sha1Round (st : Sha1State) (i w : Nat) : Sha1State :=
  let p := fk i st.b st.c st.d
  let temp := w32 (rotl 5 st.a + p.1 + st.e + p.2 + w)
  ⟨temp, st.a, rotl 30 st.b, st.c, st.d⟩

/-- Run the 80 rounds over the schedule, threading the round index. -/
def sha1Rounds (st : Sha1State) (i : Nat) : List Nat → Sha1State
  | [] => st
  | w :: ws => sha1Rounds (sha1Round st i w) (i + 1) ws

/-- Compress one 64-byte block into the chaining state. -/
def sha1Block (h : Sha1State) (block : List Nat) : Sha1State :=
  let ws := sched 64 (beWords block).reverse
  let st := sha1Rounds h 0 ws
  ⟨w32 (h.a + st.a), w32 (h.b + st.b), w32 (h.c + st.c),
   w32 (h.d + st.d), w32 (h.e + st.e)⟩

/-- Split a byte string into 64-byte chunks; the first argument is
structural fuel (any value at least the number of chunks works). -/
def chunks64 : Nat → List Nat → List (List Nat)
  | 0, _ => []
  | _, [] => []
  | n + 1, l => l.take 64 :: chunks64 n (l.drop 64)

/-- SHA-1 of a byte string: a 20-byte digest. -/
def sha1 (msg : List Nat) : List Nat :=
  let padded := sha1Pad msg
  let final := (chunks64 padded.length padded).foldl sha1Block sha1Init
  be32Bytes final.a ++ be32Bytes final.b ++ be32Bytes final.c ++
    be32Bytes final.d ++ be32Bytes final.e

/-- HMAC-SHA1 as built by Go `hmac.New(sha1.New, key)`: keys longer than
the 64-byte block are first hashed; the key is zero-padded to 64 bytes
and xored with the inner and outer pad constants. -/
def hmacSha1 (key msg : List Nat) : List Nat :=
  let k := if 64 < key.length then sha1 key else key
  let kpad := k ++ List.replicate (64 - k.length) 0
  let ipad := kpad.map (fun x => x ^^^ 0x36)
  let opad := kpad.map (fun x => x ^^^ 0x5C)
  sha1 (opad ++ sha1 (ipad ++ msg))

/-! ## Go time arithmetic

Instants are integers counting nanoseconds since the Go zero time
(January 1, year 1 UTC).  Lean `Int` `%` is `Int.emod`, whose result for
a positive divisor lies in `[0, d)`, exactly the remainder Go `div`
produces inside `Time.Round`; Lean `Int` `/` is `Int.ediv`, which for a
positive divisor is floor division, matching the seconds decomposition Go uses
of an internal timestamp. -/

/-- Seconds between the Go zero time and the Unix epoch
(`unixToInternal` in Go time). -/
def unixToInternal : Int := 62135596800

/-- Go `Time.Round`: rounds to the nearest multiple of `d` since the
zero time, halfway values rounding up; returns `t` unchanged for
`d ≤ 0`. -/
def goRound (t d : Int) : Int :=
  if d ≤ 0 then t
  else
    let r := t % d
    if r + r < d then t - r else t + (d - r)

/-- Go `Time.Unix`: whole seconds since the Unix epoch. -/
def goUnix (t : Int) : Int := t / 1000000000 - unixToInternal

/-- Go conversion `uint64(x)` of an `int64`-valued integer. -/
def toUint64 (x : Int) : Nat := (x % (2 ^ 64 : Int)).toNat

/-! ## The PassKey core (PassKey struct, generate, Start/tick) -/

/-- The configuration part of the Go `PassKey` struct: the rotation
interval in nanoseconds and the 20-byte shared secret. -/
structure PK where
  interval : Int
  secret : List Nat

/-- The time bucket hashed by `PassKey.generate(i)` at instant `now`:
Go `time.Now().UTC().Add(time.Duration(i-1)*pk.interval).Round(pk.interval)`. -/
def bucketTime (interval : Int) (i : Nat) (now : Int) : Int :=
  goRound (now + ((i : Int) - 1) * interval) interval

/-- The dynamic-truncation start index `((hash[19] & 0xF) / 2) + 1`
(`nibble` in `PassKey.generate`). -/
def truncOffset (hash : List Nat) : Nat := (hash.getD 19 0 &&& 0xF) / 2 + 1

/-- The code derived for a given bucket instant: serialize its
Unix seconds as 8 little-endian bytes, HMAC-SHA1 them under the secret,
and read a little-endian `uint64` from the digest at the truncation
offset.  `PassKey.generate` is this applied to `bucketTime`. -/
def deriveBucket (pk : PK) (bt : Int) : Nat :=
  let bs := le64Bytes (toUint64 (goUnix bt))
  let hash := hmacSha1 pk.secret bs
  leUint64 ((hash.drop (truncOffset hash)).take 8)

/-- Go `PassKey.generate(i)` executed at instant `now`: derive the code
for the bucket `Round(now + (i-1)*interval)` and store it in slot `i`
(`0`: current, `1`: next, `2`: previous, per the source comments). -/
def generate (pk : PK) (i : Nat) (now : Int) : Nat :=
  deriveBucket pk (bucketTime pk.interval i now)

/-- The `cnp` slot array of the Go `PassKey` struct: `cnp[0]` is the
current slot, `cnp[1]` the next slot, `cnp[2]` the previous slot
(the roles used by `Start`, the ticker body and `IsValid`). -/
structure Cnp where
  cnp0 : Nat
  cnp1 : Nat
  cnp2 : Nat
deriving DecidableEq

/-- The window set up by `PassKey.Start` at instant `now`:
`generate(0)` and `generate(1)` run, `cnp[2]` keeps its zero value. -/
def start (pk : PK) (now : Int) : Cnp :=
  { cnp0 := generate pk 0 now, cnp1 := generate pk 1 now, cnp2 := 0 }

/-- One ticker iteration of `PassKey.Start` executing at instant `t`:
`cnp[2].Store(cnp[0].Load())`, `cnp[0].Store(cnp[1].Load())`, then
`generate(1)`. -/
def tick (pk : PK) (w : Cnp) (t : Int) : Cnp :=
  { cnp2 := w.cnp0, cnp0 := w.cnp1, cnp1 := generate pk 1 (t : Int) }

/-- The window after `k` ticker iterations of a session started at
instant `t0`, the `k`-th tick firing at `t0 + k * interval`
(Go `time.NewTicker(pk.interval)`). -/
def run (pk : PK) (t0 : Int) : Nat → Cnp
  | 0 => start pk t0
  | k + 1 => tick pk (run pk t0 k) (t0 + ((k : Int) + 1) * pk.interval)

/-- Number of ticker firings completed by instant `s` for a session
started at `t0`. -/
def ticksBy (t0 I s : Int) : Nat := ((s - t0) / I).toNat

/-- The live window observed at instant `s` of a continuously rotating
session started at `t0`. -/
def windowAt (pk : PK) (t0 s : Int) : Cnp :=
  run pk t0 (ticksBy t0 pk.interval s)

/-- A presented code is live iff it equals one of the three slots —
the acceptance test of `Server.IsValid`. -/
def liveCode (w : Cnp) (c : Nat) : Prop :=
  c = w.cnp0 ∨ c = w.cnp1 ∨ c = w.cnp2

instance (w : Cnp) (c : Nat) : Decidable (liveCode w c) := by
  unfold liveCode; infer_instance

/-- The code a client derives for instant `t`: its current slot,
populated by `generate(0)`. -/
def codeFor (pk : PK) (t : Int) : Nat := generate pk 0 t

/-! ## Base32 (Go encoding/base32, StdEncoding with `=` padding)

Shift/mask expressions of the Go source are written as the equal
division/multiplication/remainder arithmetic on `Nat` (for bytes and
5-bit groups these are literally the same functions). -/

/-- The standard base32 alphabet `A..Z2..7` as byte values. -/
def b32Alphabet : List Nat :=
  [65, 66, 67, 68, 69, 70, 71, 72, 73, 74, 75, 76, 77, 78, 79, 80, 81,
   82, 83, 84, 85, 86, 87, 88, 89, 90, 50, 51, 52, 53, 54, 55]

/-- `enc.encode[d]`: the alphabet byte of a 5-bit group. -/
def encChar (d : Nat) : Nat := b32Alphabet.getD d 0

/-- `enc.decodeMap[c]`: the 5-bit group of an alphabet byte, `0xFF` for
bytes outside the alphabet. -/
def decChar (c : Nat) : Nat :=
  let i := b32Alphabet.findIdx (fun x => x == c)
  if i < 32 then i else 0xFF

/-- Encode one full 5-byte group into 8 alphabet bytes: the `hi`/`lo` shift ladder of the Go encoder, expressed through the 40-bit value of the group. -/
def encGroup5 (b0 b1 b2 b3 b4 : Nat) : List Nat :=
  let n := b0 * 2 ^ 32 + b1 * 2 ^ 24 + b2 * 2 ^ 16 + b3 * 2 ^ 8 + b4
  [encChar (n / 2 ^ 35 % 32), encChar (n / 2 ^ 30 % 32),
   encChar (n / 2 ^ 25 % 32), encChar (n / 2 ^ 20 % 32),
   encChar (n / 2 ^ 15 % 32), encChar (n / 2 ^ 10 % 32),
   encChar (n / 2 ^ 5 % 32), encChar (n % 32)]

/-- Encode a final group of `r ∈ {1,2,3,4}` bytes: the bytes left-aligned
in the 40-bit value, `r*8/5 + 1` data characters, `=` padding to 8. -/
def encTail (r : Nat) (bs : List Nat) : List Nat :=
  let n := (bs.foldl (fun acc b => acc * 256 + b) 0) * 2 ^ (8 * (5 - r))
  let dat := (List.range (r * 8 / 5 + 1)).map
    (fun j => encChar (n / 2 ^ (35 - 5 * j) % 32))
  dat ++ List.replicate (8 - dat.length) 61

/-- The grouping loop of the Go base32 encoder (first argument is
structural fuel, any value at least the number of groups). -/
def b32EncodeF : Nat → List Nat → List Nat
  | 0, _ => []
  | _, [] => []
  | fuel + 1, b0 :: b1 :: b2 :: b3 :: b4 :: rest =>
      encGroup5 b0 b1 b2 b3 b4 ++ b32EncodeF fuel rest
  | _, rest => encTail rest.length rest

/-- Go `base32.StdEncoding.EncodeToString` at the byte level. -/
def b32Encode (b : List Nat) : List Nat := b32EncodeF b.length b

/-- The inner loop of the Go base32 decoder: read up to 8 alphabet bytes
into a quantum, handling `=` padding; `acc` holds the groups read so far
in reverse (`acc.length` plays the role of `j` in Go), the fuel counts the characters
still needed.  Returns the groups, `dlen`, the remaining input and the
end flag, or `none` on corrupt input. -/
def readQ : Nat → List Nat → List Nat → Option (List Nat × Nat × List Nat × Bool)
  | 0, acc, src => some (acc.reverse, acc.length, src, false)
  | fuel + 1, acc, src =>
    match src with
    | [] => none
    | c :: rest =>
      if c = 61 ∧ 2 ≤ acc.length ∧ rest.length < 8 then
        if rest.length + acc.length < 7 then none
        else if (rest.take (7 - acc.length)).any (fun x => x ≠ 61) then none
        else if acc.length = 3 ∨ acc.length = 6 then none
        else some (acc.reverse, acc.length, rest, true)
      else
        let d := decChar c
        if d = 0xFF then none
        else readQ fuel (d :: acc) rest

/-- Pack a quantum of 5-bit groups into output bytes: the `dst` switch on `dlen` in the Go decoder (byte shifts written as arithmetic, with the
`uint8` truncation of `dbuf[1]<<6`, `dbuf[4]<<7` etc. kept as `w8`). -/
def packQ (dbuf : List Nat) (dlen : Nat) : List Nat :=
  let d0 := dbuf.getD 0 0
  let d1 := dbuf.getD 1 0
  let d2 := dbuf.getD 2 0
  let d3 := dbuf.getD 3 0
  let d4 := dbuf.getD 4 0
  let d5 := dbuf.getD 5 0
  let d6 := dbuf.getD 6 0
  let d7 := dbuf.getD 7 0
  let o0 := w8 (d0 * 8 + d1 / 4)
  let o1 := w8 (d1 * 64 + d2 * 2 + d3 / 16)
  let o2 := w8 (d3 * 16 + d4 / 2)
  let o3 := w8 (d4 * 128 + d5 * 4 + d6 / 8)
  let o4 := w8 (d6 * 32 + d7)
  if dlen = 8 then [o0, o1, o2, o3, o4]
  else if dlen = 7 then [o0, o1, o2, o3]
  else if dlen = 5 then [o0, o1, o2]
  else if dlen = 4 then [o0, o1]
  else if dlen = 2 then [o0]
  else []

/-- The outer loop of the Go base32 decoder: decode quantums until the
input is exhausted or a padded quantum ends the stream (input after a
padded quantum is ignored, as in Go). -/
def b32DecodeF : Nat → List Nat → Option (List Nat)
  | _, [] => some []
  | 0, _ => none
  | fuel + 1, src =>
    match readQ 8 [] src with
    | none => none
    | some (dbuf, dlen, rest, ed) =>
      let bytes := packQ dbuf dlen
      if ed then some bytes
      else
        match b32DecodeF fuel rest with
        | none => none
        | some bs => some (bytes ++ bs)

/-- `DecodeString` first drops carriage returns and newlines. -/
def stripNewlines (l : List Nat) : List Nat :=
  l.filter (fun c => !(c == 10 || c == 13))

/-- Go `base32.StdEncoding.DecodeString` at the byte level: `none` is a
non-nil error. -/
def decodeString (s : List Nat) : Option (List Nat) :=
  let l := stripNewlines s
  b32DecodeF l.length l

/-! ## Server middleware, client header, secret setter -/

/-- The three externally distinguishable outcomes of the `IsValid`
middleware: 400, 401, or delegation to the wrapped handler. -/
inductive Outcome
  | badRequest
  | unauthorized
  | delegated
deriving DecidableEq

/-- Go `Server.IsValid` handling one request whose token header carries
`header`, against window `w`: 400 when decoding fails or the decoded
length is not 10, 401 when the leading little-endian `uint64` matches no
slot, otherwise the downstream handler runs. -/
def isValid (w : Cnp) (header : List Nat) : Outcome :=
  match decodeString header with
  | none => .badRequest
  | some b =>
    if b.length ≠ 10 then .badRequest
    else if liveCode w (leUint64 (b.take 8)) then .delegated
    else .unauthorized

/-- Go `Client.SetHeader`: the header value is the base32 encoding of
the 8 little-endian bytes of the current slot followed by 2 random
obfuscation bytes. -/
def setHeaderValue (cur p0 p1 : Nat) : List Nat :=
  b32Encode (le64Bytes cur ++ [p0, p1])

/-- The dynamically-typed argument of `PassKey.Secret`: a string, a
`[20]byte`, or a value of any other type. -/
inductive SecretArg
  | str : List Nat → SecretArg
  | arr20 : List Nat → SecretArg
  | other : SecretArg

/-- Go `copy(dst, src)` for byte slices: overwrite the first
`min dst.length src.length` entries of `dst`. -/
def goCopy (dst src : List Nat) : List Nat :=
  src.take (min dst.length src.length) ++ dst.drop (min dst.length src.length)

/-- Go `PassKey.Secret`: `none` models the `return nil` branch, `some`
the returned receiver with its (possibly updated) stored secret. -/
def secretSet (sec : List Nat) (arg : SecretArg) : Option (List Nat) :=
  match arg with
  | .str v =>
    if v.length = 32 then
      match decodeString v with
      | none => none
      | some b => some (goCopy sec b)
    else some sec
  | .arr20 b => some (goCopy sec b)
  | .other => some sec

/-! ## Concrete instances used by counterexamples and witnesses -/

/-- The 20 bytes of the base32 secret `PASSKEYXXBASE32XXSECRETXXEXAMPLE`
used by the example programs of the repository. -/
def exampleSecret : List Nat :=
  [120, 37, 37, 19, 23, 184, 65, 34, 111, 87, 188, 136, 40, 146, 119, 185,
   46, 6, 61, 100]

/-- A session with the example secret and the default one-minute interval. -/
def pkEx : PK := ⟨60 * 10 ^ 9, exampleSecret⟩

/-- The instant 2023-11-14 22:13:20 UTC (Unix second 1700000000) in
nanoseconds since the Go zero time. -/
def tEx : Int := (1700000000 + 62135596800) * 10 ^ 9

/-! ## Helper lemmas -/

theorem sha1_length (msg : List Nat) : (sha1 msg).length = 20 := by
  simp [sha1, be32Bytes]

theorem hmacSha1_length (key msg : List Nat) :
    (hmacSha1 key msg).length = 20 := by
  simp only [hmacSha1]
  exact sha1_length _

theorem truncOffset_bounds (h : List Nat) :
    1 ≤ truncOffset h ∧ truncOffset h ≤ 8 := by
  unfold truncOffset
  have hb : h.getD 19 0 &&& 15 ≤ 15 := Nat.and_le_right
  omega

/-- Rounding to the nearest multiple of `I` commutes with shifting by an
exact multiple of `I`. -/
theorem goRound_add_mul (t k I : Int) (hI : 0 < I) :
    goRound (t + k * I) I = goRound t I + k * I := by
  have hmod : (t + k * I) % I = t % I := Int.add_mul_emod_self
  simp only [goRound, hmod, if_neg (not_le.mpr hI)]
  split <;> ring

/-- `goRound` lands on a multiple of the interval. -/
theorem goRound_emod (t I : Int) (hI : 0 < I) : goRound t I % I = 0 := by
  simp only [goRound, if_neg (not_le.mpr hI)]
  have hdef : t % I = t - I * (t / I) := Int.emod_def t I
  split
  · have : t - t % I = I * (t / I) := by omega
    rw [this]
    exact Int.mul_emod_right I _
  · have : t + (I - t % I) = I * (t / I + 1) := by
      rw [mul_add]
      omega
    rw [this]
    exact Int.mul_emod_right I _

/-- A multiple of the interval is its own rounding. -/
theorem goRound_aligned (t I : Int) (hI : 0 < I) (h : t % I = 0) :
    goRound t I = t := by
  simp only [goRound, if_neg (not_le.mpr hI), h]
  rw [if_pos (by omega)]
  ring

/-- The bucket of `generate(i)` is the rounded present instant shifted by
`(i - 1)` intervals. -/
theorem bucketTime_eq (I : Int) (hI : 0 < I) (i : Nat) (now : Int) :
    bucketTime I i now = goRound now I + ((i : Int) - 1) * I :=
  goRound_add_mul now ((i : Int) - 1) I hI

/-! ## C8: the truncation offset stays inside the digest -/

/-- C8: for every 20-byte digest, the truncation offset
`((digest[19] & 0xF) / 2) + 1` lies in `[1, 8]`, so the 8-byte read ends
at index at most 16 and stays inside the digest: the extracted slice
really has 8 elements. -/
theorem claim_C8 (digest : List Nat) (hlen : digest.length = 20) :
    1 ≤ truncOffset digest ∧ truncOffset digest ≤ 8 ∧
    truncOffset digest + 8 ≤ 16 ∧
    ((digest.drop (truncOffset digest)).take 8).length = 8 := by
  obtain ⟨h1, h2⟩ := truncOffset_bounds digest
  refine ⟨h1, h2, by omega, ?_⟩
  simp only [List.length_take, List.length_drop, hlen]
  omega

/-- C8 witness at the concrete digest `[0, 1, ..., 19]`. -/
theorem claim_C8_witness :
    1 ≤ truncOffset (List.range 20) ∧ truncOffset (List.range 20) ≤ 8 ∧
    truncOffset (List.range 20) + 8 ≤ 16 ∧
    (((List.range 20).drop (truncOffset (List.range 20))).take 8).length = 8 :=
  claim_C8 (List.range 20) (by decide)

/-! ## C1: the derivation pipeline of generate -/

/-- C1: for every 20-byte secret, positive interval, slot offset in
`{0,1,2}` and time, `generate` hashes the 8-byte little-endian
serialization of the time bucket with HMAC-SHA1 keyed by the secret and
returns the little-endian `uint64` read from the digest starting at
index `((digest[19] & 0xF) / 2) + 1`. -/
theorem claim_C1 (pk : PK) (i : Nat) (now : Int)
    (hsec : pk.secret.length = 20) (hI : 0 < pk.interval) (hi : i < 3) :
    (le64Bytes (toUint64 (goUnix (bucketTime pk.interval i now)))).length = 8 ∧
    generate pk i now =
      leUint64
        (((hmacSha1 pk.secret
            (le64Bytes (toUint64 (goUnix (bucketTime pk.interval i now))))).drop
          (((hmacSha1 pk.secret
            (le64Bytes (toUint64 (goUnix (bucketTime pk.interval i now))))).getD 19 0
              &&& 0xF) / 2 + 1)).take 8) :=
  ⟨by simp [le64Bytes], rfl⟩

/-- C1 witness at the all-zero secret, one-minute interval, slot 1,
instant `tEx`. -/
theorem claim_C1_witness :
    (le64Bytes (toUint64 (goUnix (bucketTime (60 * 10 ^ 9) 1 tEx)))).length = 8 ∧
    generate ⟨60 * 10 ^ 9, List.replicate 20 0⟩ 1 tEx =
      leUint64
        (((hmacSha1 (List.replicate 20 0)
            (le64Bytes (toUint64 (goUnix (bucketTime (60 * 10 ^ 9) 1 tEx))))).drop
          (((hmacSha1 (List.replicate 20 0)
            (le64Bytes (toUint64 (goUnix (bucketTime (60 * 10 ^ 9) 1 tEx))))).getD 19 0
              &&& 0xF) / 2 + 1)).take 8) :=
  claim_C1 ⟨60 * 10 ^ 9, List.replicate 20 0⟩ 1 tEx (by decide) (by decide)
    (by decide)

/-! ## C5: the window immediately after Start -/

/-- C5: immediately after start and before the first tick, the current
slot holds the code of the bucket one interval below the rounded start
instant, the next slot the code of the rounded start instant itself, and
the previous slot the zero sentinel. -/
theorem claim_C5 (pk : PK) (now : Int) (hI : 0 < pk.interval) :
    (start pk now).cnp0 =
      deriveBucket pk (goRound now pk.interval - pk.interval) ∧
    (start pk now).cnp1 = deriveBucket pk (goRound now pk.interval) ∧
    (start pk now).cnp2 = 0 := by
  refine ⟨?_, ?_, rfl⟩
  · show generate pk 0 now = _
    unfold generate
    rw [bucketTime_eq _ hI]
    exact congrArg _ (by push_cast; ring)
  · show generate pk 1 now = _
    unfold generate
    rw [bucketTime_eq _ hI]
    exact congrArg _ (by push_cast; ring)

/-- C5 witness at the example session and instant `tEx`. -/
theorem claim_C5_witness :
    (start pkEx tEx).cnp0 =
      deriveBucket pkEx (goRound tEx pkEx.interval - pkEx.interval) ∧
    (start pkEx tEx).cnp1 = deriveBucket pkEx (goRound tEx pkEx.interval) ∧
    (start pkEx tEx).cnp2 = 0 :=
  claim_C5 pkEx tEx (by decide)

/-! ## C2: which bucket each slot offset hashes -/

/-- The phrase of the spec, "`now` rounded down to the nearest `interval`
boundary", as a definition: floor to a multiple of `d`.  Used only to
compare the claim against `goRound` from the code. -/
def roundDown (t d : Int) : Int := t - t % d

/-- C2 counterexample: at slot offset 1 and the instant 35 seconds into
a minute, the hashed bucket is the *next* minute boundary (Go `Round`
rounds to nearest), not the floor the claim states; and the current slot at start
holds the `generate(0)` code, which differs from the `generate(1)` code
the claim assigns to it.  Both conjuncts of the claim fail. -/
theorem claim_C2_counterexample :
    bucketTime (60 * 10 ^ 9) 1 (tEx + 15 * 10 ^ 9) ≠
      roundDown (tEx + 15 * 10 ^ 9) (60 * 10 ^ 9) +
        ((1 : Int) - 1) * (60 * 10 ^ 9) ∧
    (start pkEx (tEx + 15 * 10 ^ 9)).cnp0 ≠
      generate pkEx 1 (tEx + 15 * 10 ^ 9) := by
  constructor
  · decide
  · decide

/-- C2 amended: the time bucket hashed by `generate` at slot offset
`i ∈ {0,1,2}` equals `now` rounded to the *nearest* interval boundary
(ties up) plus `(i - 1) * interval`; the code stored in the current slot
is produced by slot offset 0 and the code stored in the next slot by
slot offset 1. -/
theorem claim_C2_amended (pk : PK) (i : Nat) (now : Int)
    (hI : 0 < pk.interval) (hi : i < 3) :
    bucketTime pk.interval i now =
      goRound now pk.interval + ((i : Int) - 1) * pk.interval ∧
    (start pk now).cnp0 = generate pk 0 now ∧
    (start pk now).cnp1 = generate pk 1 now :=
  ⟨bucketTime_eq pk.interval hI i now, rfl, rfl⟩

/-- C2 amended witness at the example session. -/
theorem claim_C2_amended_witness :
    bucketTime pkEx.interval 2 tEx =
      goRound tEx pkEx.interval + ((2 : Int) - 1) * pkEx.interval ∧
    (start pkEx tEx).cnp0 = generate pkEx 0 tEx ∧
    (start pkEx tEx).cnp1 = generate pkEx 1 tEx :=
  claim_C2_amended pkEx 2 tEx (by decide) (by decide)

/-! ## C3: what one tick does -/

/-- C3 counterexample: at a tick instant 20 seconds into a minute, the
rotation moves current into previous and next into current as claimed,
but the fresh next code is derived for the tick instant rounded to the
nearest boundary (here the *current* bucket), not for the bucket one
interval ahead. -/
theorem claim_C3_counterexample :
    (tick pkEx ⟨1, 2, 3⟩ tEx).cnp2 = 1 ∧
    (tick pkEx ⟨1, 2, 3⟩ tEx).cnp0 = 2 ∧
    (tick pkEx ⟨1, 2, 3⟩ tEx).cnp1 ≠
      deriveBucket pkEx (roundDown tEx (60 * 10 ^ 9) + 60 * 10 ^ 9) :=
  ⟨rfl, rfl, by decide⟩

/-- C3 amended: one tick moves the pre-tick current code into the
previous slot and the pre-tick next code into the current slot, and
derives the fresh next code for the tick instant rounded to the nearest
interval boundary (one interval ahead only when the tick falls in the
upper half of its interval). -/
theorem claim_C3_amended (pk : PK) (w : Cnp) (t : Int) :
    (tick pk w t).cnp2 = w.cnp0 ∧
    (tick pk w t).cnp0 = w.cnp1 ∧
    (tick pk w t).cnp1 = deriveBucket pk (goRound t pk.interval) := by
  refine ⟨rfl, rfl, ?_⟩
  show deriveBucket pk (bucketTime pk.interval 1 t) = _
  unfold bucketTime
  exact congrArg _ (by push_cast; ring_nf)

/-! ## C4: outcome classification of the IsValid middleware -/

/-- C4: a request yields the 400 outcome iff the header fails base32
decoding or decodes to a length other than 10; otherwise the downstream
handler runs iff the little-endian `uint64` in the first 8 decoded bytes
equals one of the three slots, and the request yields the distinct 401
outcome otherwise. -/
theorem claim_C4 (w : Cnp) (header : List Nat) :
    (isValid w header = .badRequest ↔
      decodeString header = none ∨
        ∃ b, decodeString header = some b ∧ b.length ≠ 10) ∧
    (∀ b, decodeString header = some b → b.length = 10 →
      (isValid w header = .delegated ↔ liveCode w (leUint64 (b.take 8))) ∧
      (isValid w header = .unauthorized ↔
        ¬ liveCode w (leUint64 (b.take 8)))) := by
  cases h : decodeString header with
  | none => simp [isValid, h]
  | some b =>
    by_cases hl : b.length = 10
    · by_cases hv : liveCode w (leUint64 (b.take 8))
      · simp [isValid, h, hl, hv]
      · simp [isValid, h, hl, hv]
    · simp [isValid, h, hl]

/-- C4 witness: a window whose current slot matches the decoded header
`AEBAGBAFAYDQQCIK`, bytes `[1, ..., 10]`. -/
theorem claim_C4_witness :
    (isValid ⟨leUint64 [1, 2, 3, 4, 5, 6, 7, 8], 0, 0⟩
        [65, 69, 66, 65, 71, 66, 65, 70, 65, 89, 68, 81, 81, 67, 73, 75] =
          .delegated ↔
      liveCode ⟨leUint64 [1, 2, 3, 4, 5, 6, 7, 8], 0, 0⟩
        (leUint64 ([1, 2, 3, 4, 5, 6, 7, 8, 9, 10].take 8))) ∧
    (isValid ⟨leUint64 [1, 2, 3, 4, 5, 6, 7, 8], 0, 0⟩
        [65, 69, 66, 65, 71, 66, 65, 70, 65, 89, 68, 81, 81, 67, 73, 75] =
          .unauthorized ↔
      ¬ liveCode ⟨leUint64 [1, 2, 3, 4, 5, 6, 7, 8], 0, 0⟩
        (leUint64 ([1, 2, 3, 4, 5, 6, 7, 8, 9, 10].take 8))) :=
  (claim_C4 ⟨leUint64 [1, 2, 3, 4, 5, 6, 7, 8], 0, 0⟩
      [65, 69, 66, 65, 71, 66, 65, 70, 65, 89, 68, 81, 81, 67, 73, 75]).2
    [1, 2, 3, 4, 5, 6, 7, 8, 9, 10] (by decide) (by decide)

/-! ## C9: the zero sentinel is compared like a live slot -/

/-- C9: after start and before the first tick the previous slot holds 0,
and any well-formed 10-byte credential whose first 8 decoded bytes are
all zero is accepted and passed to the downstream handler. -/
theorem claim_C9 (pk : PK) (now : Int) (header b : List Nat)
    (hd : decodeString header = some b) (hlen : b.length = 10)
    (hz : b.take 8 = List.replicate 8 0) :
    (start pk now).cnp2 = 0 ∧ isValid (start pk now) header = .delegated := by
  refine ⟨rfl, ?_⟩
  have hlive : liveCode (start pk now) (leUint64 (b.take 8)) := by
    rw [hz]
    right; right
    rfl
  unfold isValid
  rw [hd]
  simp [hlen, hlive]

/-- C9 witness: the header of 16 `A` characters decodes to 10 zero bytes
and is accepted by the cold-start window of the example session. -/
theorem claim_C9_witness :
    (start pkEx tEx).cnp2 = 0 ∧
    isValid (start pkEx tEx) (List.replicate 16 65) = .delegated :=
  claim_C9 pkEx tEx (List.replicate 16 65) (List.replicate 10 0)
    (by decide) (by decide) (by decide)

/-! ## C10: the Secret setter -/

/-- C10: `Secret` returns nil exactly on a 32-character string whose
base32 decoding fails; any other string length and any other argument
type leave the stored secret unchanged and return the receiver; a
`[20]byte` is copied into the store. -/
theorem claim_C10 (sec v b : List Nat) :
    (secretSet sec (.str v) = none ↔
      v.length = 32 ∧ decodeString v = none) ∧
    (v.length ≠ 32 → secretSet sec (.str v) = some sec) ∧
    secretSet sec .other = some sec ∧
    secretSet sec (.arr20 b) = some (goCopy sec b) ∧
    (sec.length = 20 → b.length = 20 → secretSet sec (.arr20 b) = some b) := by
  refine ⟨?_, ?_, rfl, rfl, ?_⟩
  · unfold secretSet
    by_cases hl : v.length = 32
    · cases hd : decodeString v <;> simp [hl, hd]
    · simp [hl]
  · intro hl
    unfold secretSet
    simp [hl]
  · intro hs hb
    show some (goCopy sec b) = some b
    unfold goCopy
    have h1 : b.take (min sec.length b.length) = b :=
      List.take_of_length_le (by omega)
    have h2 : sec.drop (min sec.length b.length) = [] :=
      List.drop_eq_nil_of_le (by omega)
    rw [h1, h2, List.append_nil]

/-- C10 witness: a 20-byte array argument replaces the stored secret and
returns the receiver. -/
theorem claim_C10_witness :
    secretSet (List.replicate 20 0) (.arr20 (List.range 20)) =
      some (List.range 20) :=
  (claim_C10 (List.replicate 20 0) (List.replicate 32 65) (List.range 20)).2.2.2.2
    (by decide) (by decide)

/-! ## C7: the header credential round trip -/

/-- Facts about the alphabet maps on 5-bit groups, by enumeration. -/
theorem charFacts : ∀ d, d < 32 →
    decChar (encChar d) = d ∧ encChar d ≠ 61 ∧ encChar d ≠ 10 ∧
      encChar d ≠ 13 := by decide

theorem decChar_encChar (m : Nat) : decChar (encChar (m % 32)) = m % 32 :=
  (charFacts (m % 32) (Nat.mod_lt m (by norm_num))).1

theorem encChar_ne_pad (m : Nat) : ¬ encChar (m % 32) = 61 :=
  (charFacts (m % 32) (Nat.mod_lt m (by norm_num))).2.1

theorem decChar_encChar_ne (m : Nat) : ¬ decChar (encChar (m % 32)) = 255 := by
  rw [decChar_encChar]
  have := Nat.mod_lt m (y := 32) (by norm_num)
  omega

theorem strip_cons (m : Nat) (l : List Nat) :
    stripNewlines (encChar (m % 32) :: l) =
      encChar (m % 32) :: stripNewlines l := by
  obtain ⟨-, -, h10, h13⟩ := charFacts (m % 32) (Nat.mod_lt m (by norm_num))
  simp [stripNewlines, h10, h13]

theorem strip_nil : stripNewlines [] = [] := rfl

/-- Reading one non-pad valid character inside a quantum. -/
theorem readQ_step (fuel : Nat) (acc : List Nat) (m : Nat) (src : List Nat) :
    readQ (fuel + 1) acc (encChar (m % 32) :: src) =
      readQ fuel (m % 32 :: acc) src := by
  simp [readQ, encChar_ne_pad, decChar_encChar, decChar_encChar_ne]
  intro h
  have := Nat.mod_lt m (y := 32) (by norm_num)
  omega

/-- A full quantum of 8 encoded groups reads back its groups. -/
theorem readQ_full (m0 m1 m2 m3 m4 m5 m6 m7 : Nat) (rest : List Nat) :
    readQ 8 []
      (encChar (m0 % 32) :: encChar (m1 % 32) :: encChar (m2 % 32) ::
       encChar (m3 % 32) :: encChar (m4 % 32) :: encChar (m5 % 32) ::
       encChar (m6 % 32) :: encChar (m7 % 32) :: rest) =
      some ([m0 % 32, m1 % 32, m2 % 32, m3 % 32, m4 % 32, m5 % 32,
             m6 % 32, m7 % 32], 8, rest, false) := by
  have h0 := readQ_step 7 [] m0
    (encChar (m1 % 32) :: encChar (m2 % 32) :: encChar (m3 % 32) ::
     encChar (m4 % 32) :: encChar (m5 % 32) :: encChar (m6 % 32) ::
     encChar (m7 % 32) :: rest)
  rw [show (8 : Nat) = 7 + 1 from rfl, h0]
  rw [show (7 : Nat) = 6 + 1 from rfl, readQ_step]
  rw [show (6 : Nat) = 5 + 1 from rfl, readQ_step]
  rw [show (5 : Nat) = 4 + 1 from rfl, readQ_step]
  rw [show (4 : Nat) = 3 + 1 from rfl, readQ_step]
  rw [show (3 : Nat) = 2 + 1 from rfl, readQ_step]
  rw [show (2 : Nat) = 1 + 1 from rfl, readQ_step]
  rw [show (1 : Nat) = 0 + 1 from rfl, readQ_step]
  rfl

/-- Decoding one full encoded quantum followed by more input. -/
theorem b32DecodeF_step (fuel : Nat) (m0 m1 m2 m3 m4 m5 m6 m7 : Nat)
    (rest : List Nat) (bs : List Nat) (hrest : b32DecodeF fuel rest = some bs) :
    b32DecodeF (fuel + 1)
      (encChar (m0 % 32) :: encChar (m1 % 32) :: encChar (m2 % 32) ::
       encChar (m3 % 32) :: encChar (m4 % 32) :: encChar (m5 % 32) ::
       encChar (m6 % 32) :: encChar (m7 % 32) :: rest) =
      some (packQ [m0 % 32, m1 % 32, m2 % 32, m3 % 32, m4 % 32, m5 % 32,
                   m6 % 32, m7 % 32] 8 ++ bs) := by
  simp [b32DecodeF, readQ_full, hrest]

/-- packQ inverts encGroup5 on byte-valued groups. -/
theorem packQ_encGroup5 (b0 b1 b2 b3 b4 : Nat) (h0 : b0 < 256) (h1 : b1 < 256)
    (h2 : b2 < 256) (h3 : b3 < 256) (h4 : b4 < 256) :
    packQ [(b0 * 2 ^ 32 + b1 * 2 ^ 24 + b2 * 2 ^ 16 + b3 * 2 ^ 8 + b4) / 2 ^ 35 % 32,
           (b0 * 2 ^ 32 + b1 * 2 ^ 24 + b2 * 2 ^ 16 + b3 * 2 ^ 8 + b4) / 2 ^ 30 % 32,
           (b0 * 2 ^ 32 + b1 * 2 ^ 24 + b2 * 2 ^ 16 + b3 * 2 ^ 8 + b4) / 2 ^ 25 % 32,
           (b0 * 2 ^ 32 + b1 * 2 ^ 24 + b2 * 2 ^ 16 + b3 * 2 ^ 8 + b4) / 2 ^ 20 % 32,
           (b0 * 2 ^ 32 + b1 * 2 ^ 24 + b2 * 2 ^ 16 + b3 * 2 ^ 8 + b4) / 2 ^ 15 % 32,
           (b0 * 2 ^ 32 + b1 * 2 ^ 24 + b2 * 2 ^ 16 + b3 * 2 ^ 8 + b4) / 2 ^ 10 % 32,
           (b0 * 2 ^ 32 + b1 * 2 ^ 24 + b2 * 2 ^ 16 + b3 * 2 ^ 8 + b4) / 2 ^ 5 % 32,
           (b0 * 2 ^ 32 + b1 * 2 ^ 24 + b2 * 2 ^ 16 + b3 * 2 ^ 8 + b4) % 32] 8 =
      [b0, b1, b2, b3, b4] := by
  simp only [packQ, w8, List.getD, List.getD_cons_zero, List.getD_cons_succ,
    if_pos rfl]
  norm_num
  omega

theorem b32DecodeF_nil (fuel : Nat) : b32DecodeF fuel [] = some [] := by
  cases fuel <;> rfl

/-- Decoding 16 valid non-pad characters: two full quanta. -/
theorem decode16 (m0 m1 m2 m3 m4 m5 m6 m7 m8 m9 m10 m11 m12 m13 m14 m15 : Nat) :
    decodeString
      [encChar (m0 % 32), encChar (m1 % 32), encChar (m2 % 32),
       encChar (m3 % 32), encChar (m4 % 32), encChar (m5 % 32),
       encChar (m6 % 32), encChar (m7 % 32), encChar (m8 % 32),
       encChar (m9 % 32), encChar (m10 % 32), encChar (m11 % 32),
       encChar (m12 % 32), encChar (m13 % 32), encChar (m14 % 32),
       encChar (m15 % 32)] =
      some (packQ [m0 % 32, m1 % 32, m2 % 32, m3 % 32, m4 % 32, m5 % 32,
                   m6 % 32, m7 % 32] 8 ++
            (packQ [m8 % 32, m9 % 32, m10 % 32, m11 % 32, m12 % 32, m13 % 32,
                    m14 % 32, m15 % 32] 8 ++ [])) := by
  have hq2 : b32DecodeF 15
      [encChar (m8 % 32), encChar (m9 % 32), encChar (m10 % 32),
       encChar (m11 % 32), encChar (m12 % 32), encChar (m13 % 32),
       encChar (m14 % 32), encChar (m15 % 32)] =
      some (packQ [m8 % 32, m9 % 32, m10 % 32, m11 % 32, m12 % 32, m13 % 32,
                   m14 % 32, m15 % 32] 8 ++ []) := by
    rw [show (15 : Nat) = 14 + 1 from rfl]
    exact b32DecodeF_step 14 m8 m9 m10 m11 m12 m13 m14 m15 [] []
      (b32DecodeF_nil 14)
  simp only [decodeString, strip_cons, strip_nil, List.length_cons,
    List.length_nil]
  norm_num
  rw [show (16 : Nat) = 15 + 1 from rfl]
  exact b32DecodeF_step 15 m0 m1 m2 m3 m4 m5 m6 m7 _ _ hq2

/-- C7: decoding the encoded 10-byte credential (base32 of the 8
little-endian code bytes followed by 2 padding bytes) recovers the code
bytes and the padding exactly, and the little-endian read of the first 8
decoded bytes is the original code. -/
theorem claim_C7 (code p0 p1 : Nat) (hc : code < 2 ^ 64) (h0 : p0 < 256)
    (h1 : p1 < 256) :
    decodeString (setHeaderValue code p0 p1) =
      some (le64Bytes code ++ [p0, p1]) ∧
    leUint64 ((le64Bytes code ++ [p0, p1]).take 8) = code := by
  constructor
  · have henc : setHeaderValue code p0 p1 =
        encGroup5 (code % 256) (code / 2 ^ 8 % 256) (code / 2 ^ 16 % 256)
            (code / 2 ^ 24 % 256) (code / 2 ^ 32 % 256) ++
          (encGroup5 (code / 2 ^ 40 % 256) (code / 2 ^ 48 % 256)
            (code / 2 ^ 56 % 256) p0 p1 ++ []) := rfl
    rw [henc]
    simp only [encGroup5, List.cons_append, List.nil_append, List.append_nil]
    rw [decode16]
    rw [packQ_encGroup5 _ _ _ _ _ (Nat.mod_lt _ (by norm_num))
          (Nat.mod_lt _ (by norm_num)) (Nat.mod_lt _ (by norm_num))
          (Nat.mod_lt _ (by norm_num)) (Nat.mod_lt _ (by norm_num)),
        packQ_encGroup5 _ _ _ _ _ (Nat.mod_lt _ (by norm_num))
          (Nat.mod_lt _ (by norm_num)) (Nat.mod_lt _ (by norm_num)) h0 h1]
    simp [le64Bytes]
  · simp only [le64Bytes, List.cons_append, List.nil_append, List.take_succ_cons,
      List.take_zero, leUint64, List.getD_cons_zero, List.getD_cons_succ]
    omega

/-- C7 witness at code `2 ^ 64 - 1` and padding bytes 7 and 9. -/
theorem claim_C7_witness :
    decodeString (setHeaderValue (2 ^ 64 - 1) 7 9) =
      some (le64Bytes (2 ^ 64 - 1) ++ [7, 9]) ∧
    leUint64 ((le64Bytes (2 ^ 64 - 1) ++ [7, 9]).take 8) = 2 ^ 64 - 1 :=
  claim_C7 (2 ^ 64 - 1) 7 9 (by norm_num) (by norm_num) (by norm_num)

/-! ## C6: the acceptance window under continuous rotation -/

/-- The start window in closed form. -/
theorem start_closed (pk : PK) (now : Int) (hI : 0 < pk.interval) :
    start pk now =
      ⟨deriveBucket pk (goRound now pk.interval - pk.interval),
       deriveBucket pk (goRound now pk.interval), 0⟩ := by
  unfold start generate
  rw [bucketTime_eq _ hI, bucketTime_eq _ hI]
  simp only [Cnp.mk.injEq]
  refine ⟨?_, ?_, trivial⟩ <;> exact congrArg _ (by push_cast; ring)

/-- `generate(1)` at an instant shifted from `t0` by a whole number of
intervals derives the bucket shifted from `Round(t0)` by the same
number. -/
theorem generate1_at (pk : PK) (hI : 0 < pk.interval) (t0 c : Int) :
    generate pk 1 (t0 + c * pk.interval) =
      deriveBucket pk (goRound t0 pk.interval + c * pk.interval) := by
  unfold generate
  rw [bucketTime_eq _ hI, goRound_add_mul _ _ _ hI]
  exact congrArg _ (by push_cast; ring)

/-- The window after `k ≥ 1` ticks in closed form: three consecutive
buckets anchored at the rounded start instant. -/
theorem run_closed (pk : PK) (t0 : Int) (hI : 0 < pk.interval) :
    ∀ k : Nat, 1 ≤ k →
      run pk t0 k =
        ⟨deriveBucket pk
           (goRound t0 pk.interval + ((k : Int) - 1) * pk.interval),
         deriveBucket pk (goRound t0 pk.interval + (k : Int) * pk.interval),
         deriveBucket pk
           (goRound t0 pk.interval + ((k : Int) - 2) * pk.interval)⟩ := by
  intro k
  induction k with
  | zero => intro h; exact absurd h (by norm_num)
  | succ n ih =>
    intro _
    show tick pk (run pk t0 n) (t0 + ((n : Int) + 1) * pk.interval) = _
    rcases Nat.eq_zero_or_pos n with hn | hn
    · subst hn
      show tick pk (start pk t0) _ = _
      rw [start_closed pk t0 hI]
      unfold tick
      rw [generate1_at pk hI]
      simp only [Cnp.mk.injEq]
      refine ⟨?_, ?_, ?_⟩ <;> exact congrArg _ (by push_cast; ring)
    · rw [ih hn]
      unfold tick
      rw [generate1_at pk hI]
      simp only [Cnp.mk.injEq]
      refine ⟨?_, ?_, ?_⟩ <;> exact congrArg _ (by push_cast; ring)

/-- The tick count bracket: `k` ticks have fired at `s` iff
`t0 + k*I ≤ s < t0 + (k+1)*I`. -/
theorem ticksBy_bracket (t0 I s : Int) (hI : 0 < I) (hs : t0 ≤ s) :
    (ticksBy t0 I s : Int) * I ≤ s - t0 ∧
      s - t0 < ((ticksBy t0 I s : Int) + 1) * I := by
  unfold ticksBy
  have hne : I ≠ 0 := by omega
  have h0 : (0 : Int) ≤ (s - t0) / I := Int.ediv_nonneg (by omega) (by omega)
  rw [Int.toNat_of_nonneg h0]
  have hdm := Int.emod_add_ediv (s - t0) I
  have hmn := Int.emod_nonneg (s - t0) hne
  have hml := Int.emod_lt_of_pos (s - t0) hI
  constructor
  · linarith [mul_comm ((s - t0) / I) I]
  · linarith [add_mul ((s - t0) / I) 1 I, one_mul I,
      mul_comm ((s - t0) / I) I]

/-- At least one tick has fired one interval after start. -/
theorem one_le_ticksBy (t0 I s : Int) (hI : 0 < I) (hs : t0 + I ≤ s) :
    1 ≤ ticksBy t0 I s := by
  unfold ticksBy
  have h1 : (1 : Int) ≤ (s - t0) / I :=
    (Int.le_ediv_iff_mul_le hI).mpr (by omega)
  omega

/-- An interval-aligned session start instant: Unix second 1699999980,
a multiple of 60 seconds. -/
def t0Ex : Int := (1699999980 + 62135596800) * 10 ^ 9

/-- C6 counterexample: with continuous rotation from the aligned start
`t0Ex`, the code derived for instant `t` (bucket `Round(t) - interval`)
is already accepted at a check instant one whole interval *before* `t`,
where the claim requires rejection before `t`.  The claimed acceptance
window `[t, t + 2*interval)` is wrong: acceptance is anchored one
interval below the rounded derivation instant. -/
theorem claim_C6_counterexample :
    t0Ex + 540 * 10 ^ 9 + 10 < t0Ex + 600 * 10 ^ 9 + 10 ∧
    liveCode (windowAt pkEx t0Ex (t0Ex + 540 * 10 ^ 9 + 10))
      (codeFor pkEx (t0Ex + 600 * 10 ^ 9 + 10)) := by
  constructor
  · decide
  · have ht : ticksBy t0Ex pkEx.interval (t0Ex + 540 * 10 ^ 9 + 10) = 9 := by
      decide
    have hw : windowAt pkEx t0Ex (t0Ex + 540 * 10 ^ 9 + 10) =
        run pkEx t0Ex 9 := by
      unfold windowAt
      rw [ht]
    rw [hw, run_closed pkEx t0Ex (by decide) 9 (by norm_num)]
    right; left
    exact congrArg (deriveBucket pkEx) (by decide)

/-- C6 amended: with continuous rotation from an interval-aligned start
`t0` and a check instant `s` at least one interval after start, the code
derived for instant `t` is accepted at `s` iff
`s ∈ [Round(t) - interval, Round(t) + 2*interval)` — a three-interval
window anchored one interval below the rounded derivation instant —
provided the codes of the three live buckets identify their buckets
against the presented code (no HMAC collision among them). -/
theorem claim_C6_amended (pk : PK) (t0 t s : Int) (hI : 0 < pk.interval)
    (h0 : t0 % pk.interval = 0) (hs : t0 + pk.interval ≤ s)
    (hd0 :
      deriveBucket pk (goRound t0 pk.interval +
          ((ticksBy t0 pk.interval s : Int) - 2) * pk.interval) =
        codeFor pk t →
      goRound t0 pk.interval +
          ((ticksBy t0 pk.interval s : Int) - 2) * pk.interval =
        goRound t pk.interval - pk.interval)
    (hd1 :
      deriveBucket pk (goRound t0 pk.interval +
          ((ticksBy t0 pk.interval s : Int) - 1) * pk.interval) =
        codeFor pk t →
      goRound t0 pk.interval +
          ((ticksBy t0 pk.interval s : Int) - 1) * pk.interval =
        goRound t pk.interval - pk.interval)
    (hd2 :
      deriveBucket pk (goRound t0 pk.interval +
          (ticksBy t0 pk.interval s : Int) * pk.interval) =
        codeFor pk t →
      goRound t0 pk.interval +
          (ticksBy t0 pk.interval s : Int) * pk.interval =
        goRound t pk.interval - pk.interval) :
    liveCode (windowAt pk t0 s) (codeFor pk t) ↔
      goRound t pk.interval - pk.interval ≤ s ∧
        s < goRound t pk.interval + 2 * pk.interval := by
  have hB : goRound t0 pk.interval = t0 := goRound_aligned t0 pk.interval hI h0
  have hk1 : 1 ≤ ticksBy t0 pk.interval s := one_le_ticksBy t0 pk.interval s hI hs
  set K : Int := (ticksBy t0 pk.interval s : Int) with hKdef
  obtain ⟨hbr1, hbr2⟩ := ticksBy_bracket t0 pk.interval s hI (by omega)
  have e1 : (K - 1) * pk.interval = K * pk.interval - pk.interval := by ring
  have e2 : (K + 1) * pk.interval = K * pk.interval + pk.interval := by ring
  have e3 : (K - 2) * pk.interval = K * pk.interval - 2 * pk.interval := by ring
  have hw : windowAt pk t0 s =
      ⟨deriveBucket pk (t0 + (K - 1) * pk.interval),
       deriveBucket pk (t0 + K * pk.interval),
       deriveBucket pk (t0 + (K - 2) * pk.interval)⟩ := by
    unfold windowAt
    rw [run_closed pk t0 hI _ hk1, hB]
  have hcode : codeFor pk t =
      deriveBucket pk (goRound t pk.interval - pk.interval) := by
    unfold codeFor generate
    rw [bucketTime_eq _ hI]
    exact congrArg _ (by push_cast; ring)
  rw [hB] at hd0 hd1 hd2
  set G : Int := goRound t pk.interval with hGdef
  constructor
  · intro hlive
    rw [hw] at hlive
    rcases hlive with h | h | h
    · have heq := hd1 h.symm
      constructor
      · linarith
      · linarith
    · have heq := hd2 h.symm
      constructor
      · linarith
      · linarith
    · have heq := hd0 h.symm
      constructor
      · linarith
      · linarith
  · rintro ⟨hge, hlt⟩
    have hdvd : pk.interval ∣ (G - pk.interval - t0) := by
      have h1 : pk.interval ∣ G :=
        Int.dvd_of_emod_eq_zero (goRound_emod t pk.interval hI)
      have h2 : pk.interval ∣ t0 := Int.dvd_of_emod_eq_zero h0
      exact dvd_sub (dvd_sub h1 dvd_rfl) h2
    obtain ⟨m, hm⟩ := hdvd
    have hub2 : pk.interval * m < pk.interval * (K + 1) := by
      linarith [mul_comm (K + 1) pk.interval]
    have hub : m < K + 1 := (mul_lt_mul_left hI).mp hub2
    have hlb2 : pk.interval * K < pk.interval * (m + 3) := by
      have e4 : pk.interval * (m + 3) = pk.interval * m + 3 * pk.interval := by
        ring
      linarith [mul_comm K pk.interval]
    have hlb : K - 2 ≤ m := by
      have := (mul_lt_mul_left hI).mp hlb2
      omega
    have hcase : m = K - 2 ∨ m = K - 1 ∨ m = K := by omega
    rw [hw, hcode]
    rcases hcase with hc | hc | hc
    · right; right
      subst hc
      refine congrArg _ ?_
      have e5 : pk.interval * (K - 2) = (K - 2) * pk.interval := by ring
      linarith
    · left
      subst hc
      refine congrArg _ ?_
      have e5 : pk.interval * (K - 1) = (K - 1) * pk.interval := by ring
      linarith
    · right; left
      subst hc
      refine congrArg _ ?_
      have e5 : pk.interval * K = K * pk.interval := by ring
      linarith

/-- C6 amended witness: the code derived for an instant 10 intervals
after the aligned start is accepted 20 nanoseconds after its own
derivation instant, inside the amended window; the three live codes are
pairwise distinct from the codes of the other buckets, discharging the
collision hypotheses by computation. -/
theorem claim_C6_amended_witness :
    liveCode (windowAt pkEx t0Ex (t0Ex + 600 * 10 ^ 9 + 20))
        (codeFor pkEx (t0Ex + 600 * 10 ^ 9 + 10)) ↔
      goRound (t0Ex + 600 * 10 ^ 9 + 10) pkEx.interval - pkEx.interval ≤
          t0Ex + 600 * 10 ^ 9 + 20 ∧
        t0Ex + 600 * 10 ^ 9 + 20 <
          goRound (t0Ex + 600 * 10 ^ 9 + 10) pkEx.interval +
            2 * pkEx.interval :=
  claim_C6_amended pkEx t0Ex (t0Ex + 600 * 10 ^ 9 + 10)
    (t0Ex + 600 * 10 ^ 9 + 20) (by decide) (by decide) (by decide)
    (by decide) (by decide) (by decide)

end Passkey
